import Mathlib

/-!
Verification of the Unicode character-property core of the `rio` repository,
shallowly embedded from `src/sugarloaf/src/font_introspector/text/unicode.rs`.

Machine integers (`u16`, `u32`, `usize`) are embedded as `Nat`, with an
explicit `% 2 ^ w` at the points where the Rust code truncates (the `as u16`
cast and the `u16` shift-left).  The static tables (`BRACKETS`, `MIRRORS`,
`RECORDS`, `SCRIPTS_BY_TAG`) and the record-index lookup `get_record_index`
live in the generated `unicode_data.rs` module, which is not part of the
sources under verification; they are taken as parameters of the definitions,
and the handful of declarations the generated module contributes (the
`Record` struct, the `BidiClass` enumeration, the decomposition engine) are
modelled from the specification, as marked in their doc comments.
-/

namespace Rio

/-- Constant `RECORD_MASK` from unicode.rs: low 13 bits of a `Properties` word hold
the record index. -/
def RECORD_MASK : Nat := 0x1FFF

/-- Constant `BOUNDARY_SHIFT` from unicode.rs: the 2-bit boundary scratch field sits
above the record index. -/
def BOUNDARY_SHIFT : Nat := 13

/-- Struct `Properties` from unicode.rs: a bit-packed `u16`, embedded as a `Nat`
wrapper. -/
structure Properties where
  val : Nat
deriving DecidableEq, Repr

/-- Method `Properties::set_boundary` from unicode.rs:
`self.0 = (self.0 & RECORD_MASK) | (boundary & 0b11) << BOUNDARY_SHIFT`.
The shift result is reduced `% 65536` where the Rust `u16` shift would
truncate (it never actually overflows, since `boundary & 0b11 ≤ 3`). -/
def Properties.set_boundary (p : Properties) (b : Nat) : Properties :=
  ⟨(p.val &&& RECORD_MASK) ||| (((b &&& 0b11) <<< BOUNDARY_SHIFT) % 65536)⟩

/-- Method `Properties::with_boundary` from unicode.rs: takes `self` by value,
calls `set_boundary`, returns the updated copy. -/
def Properties.with_boundary (p : Properties) (b : Nat) : Properties :=
  p.set_boundary b

/-- Method `Properties::boundary` from unicode.rs: `self.0 >> BOUNDARY_SHIFT`. -/
def Properties.boundary (p : Properties) : Nat :=
  p.val >>> BOUNDARY_SHIFT

/-- The record-index component `self.0 & RECORD_MASK` read by
`Properties::record` in unicode.rs. -/
def Properties.record_index (p : Properties) : Nat :=
  p.val &&& RECORD_MASK

/-- Modelled from the spec: the `Record` struct is declared in the generated
`unicode_data.rs`, which is not under `src/`.  Per spec §3 it carries the
classification fields and a flag bitset; the enumeration-typed fields are
abstracted as `Nat` discriminants and the flags as a `Nat` bitset. -/
structure Record where
  category : Nat
  block : Nat
  script : Nat
  combining_class : Nat
  bidi_class : Nat
  joining_type : Nat
  cluster_break : Nat
  word_break : Nat
  line_break : Nat
  flags : Nat
deriving DecidableEq, Repr

/-- Method `Properties::record` from unicode.rs:
`RECORDS.get_unchecked((self.0 & RECORD_MASK) as usize)`, with the static
`RECORDS` table passed as a parameter and the unchecked access modelled by
`getD` (they agree whenever the index is in bounds, which is what the
safety claim establishes). -/
def Properties.record (p : Properties) (records : List Record) (d : Record) : Record :=
  records.getD p.record_index d

/-- Accessor `Properties::category` from unicode.rs. -/
def Properties.category (p : Properties) (records : List Record) (d : Record) : Nat :=
  (p.record records d).category

/-- Accessor `Properties::block` from unicode.rs. -/
def Properties.block (p : Properties) (records : List Record) (d : Record) : Nat :=
  (p.record records d).block

/-- Accessor `Properties::script` from unicode.rs. -/
def Properties.script (p : Properties) (records : List Record) (d : Record) : Nat :=
  (p.record records d).script

/-- Accessor `Properties::combining_class` from unicode.rs. -/
def Properties.combining_class (p : Properties) (records : List Record) (d : Record) : Nat :=
  (p.record records d).combining_class

/-- Accessor `Properties::bidi_class` from unicode.rs. -/
def Properties.bidi_class (p : Properties) (records : List Record) (d : Record) : Nat :=
  (p.record records d).bidi_class

/-- Accessor `Properties::joining_type` from unicode.rs. -/
def Properties.joining_type (p : Properties) (records : List Record) (d : Record) : Nat :=
  (p.record records d).joining_type

/-- Accessor `Properties::cluster_break` from unicode.rs. -/
def Properties.cluster_break (p : Properties) (records : List Record) (d : Record) : Nat :=
  (p.record records d).cluster_break

/-- Accessor `Properties::word_break` from unicode.rs. -/
def Properties.word_break (p : Properties) (records : List Record) (d : Record) : Nat :=
  (p.record records d).word_break

/-- Accessor `Properties::line_break` from unicode.rs. -/
def Properties.line_break (p : Properties) (records : List Record) (d : Record) : Nat :=
  (p.record records d).line_break

/-- Accessor `Properties::is_emoji` from unicode.rs; the flag bit positions inside the
generated flag bitset are modelled as distinct `testBit` positions. -/
def Properties.is_emoji (p : Properties) (records : List Record) (d : Record) : Bool :=
  (p.record records d).flags.testBit 0

/-- Accessor `Properties::is_extended_pictographic` from unicode.rs. -/
def Properties.is_extended_pictographic (p : Properties) (records : List Record) (d : Record) : Bool :=
  (p.record records d).flags.testBit 1

/-- Accessor `Properties::is_open_bracket` from unicode.rs. -/
def Properties.is_open_bracket (p : Properties) (records : List Record) (d : Record) : Bool :=
  (p.record records d).flags.testBit 2

/-- Accessor `Properties::is_close_bracket` from unicode.rs. -/
def Properties.is_close_bracket (p : Properties) (records : List Record) (d : Record) : Bool :=
  (p.record records d).flags.testBit 3

/-- Accessor `Properties::is_ignorable` from unicode.rs. -/
def Properties.is_ignorable (p : Properties) (records : List Record) (d : Record) : Bool :=
  (p.record records d).flags.testBit 4

/-- Accessor `Properties::is_variation_selector` from unicode.rs. -/
def Properties.is_variation_selector (p : Properties) (records : List Record) (d : Record) : Bool :=
  (p.record records d).flags.testBit 5

/-- Accessor `Properties::contributes_to_shaping` from unicode.rs. -/
def Properties.contributes_to_shaping (p : Properties) (records : List Record) (d : Record) : Bool :=
  (p.record records d).flags.testBit 6

theorem and_record_mask (x : Nat) : x &&& RECORD_MASK = x % 8192 := by
  have h := Nat.and_pow_two_sub_one_eq_mod x 13
  norm_num at h
  simpa [RECORD_MASK] using h

theorem and_three (x : Nat) : x &&& 3 = x % 4 := by
  have h := Nat.and_pow_two_sub_one_eq_mod x 2
  norm_num at h
  exact h

theorem set_boundary_val (p : Properties) (b : Nat) :
    (p.set_boundary b).val = p.val % 8192 + b % 4 * 8192 := by
  show (p.val &&& RECORD_MASK) ||| (((b &&& 0b11) <<< BOUNDARY_SHIFT) % 65536)
      = p.val % 8192 + b % 4 * 8192
  rw [and_record_mask, show (0b11 : Nat) = 3 from rfl, and_three, Nat.shiftLeft_eq]
  rw [show (2 : Nat) ^ BOUNDARY_SHIFT = 8192 from rfl]
  rw [Nat.mod_eq_of_lt (by omega : b % 4 * 8192 < 65536)]
  have h := Nat.mul_add_lt_is_or
    (show p.val % 8192 < 2 ^ 13 by rw [show (2:Nat) ^ 13 = 8192 from rfl]; omega) (b % 4)
  rw [Nat.lor_comm, Nat.mul_comm (b % 4) 8192]
  rw [show (2 : Nat) ^ 13 = 8192 from rfl] at h
  rw [← h]
  omega

theorem record_index_set_boundary (p : Properties) (b : Nat) :
    (p.set_boundary b).record_index = p.record_index := by
  show (p.set_boundary b).val &&& RECORD_MASK = p.val &&& RECORD_MASK
  rw [set_boundary_val, and_record_mask, and_record_mask]
  omega

theorem record_set_boundary (p : Properties) (b : Nat) (records : List Record) (d : Record) :
    (p.set_boundary b).record records d = p.record records d := by
  unfold Properties.record
  rw [record_index_set_boundary]

/-- Claim C6: for every `Properties` value `p` and every `b`, the boundary
getter after the setter returns the stored two-bit field:
`(p.with_boundary b).boundary = b % 4` (so for `b ≤ 3` it returns exactly
`b`).  `with_boundary` is a pure function of its arguments in this
embedding, so it updates only the returned copy and touches no shared
state by construction. -/
theorem with_boundary_boundary_roundtrip (p : Properties) (b : Nat) :
    (p.with_boundary b).boundary = b % 4 := by
  show (p.set_boundary b).val >>> BOUNDARY_SHIFT = b % 4
  rw [set_boundary_val, Nat.shiftRight_eq_div_pow,
    show (2:Nat) ^ BOUNDARY_SHIFT = 8192 from rfl]
  omega

/-- Claim C7: setting the boundary scratch field leaves the record index
(the low 13 bits) unchanged, so every classification accessor returns the
same value on `p.with_boundary b` as on `p` (for any record table and
default record). -/
theorem with_boundary_preserves_record (p : Properties) (b : Nat)
    (records : List Record) (d : Record) :
    (p.with_boundary b).record_index = p.record_index ∧
    (p.with_boundary b).record records d = p.record records d ∧
    (p.with_boundary b).category records d = p.category records d ∧
    (p.with_boundary b).block records d = p.block records d ∧
    (p.with_boundary b).script records d = p.script records d ∧
    (p.with_boundary b).combining_class records d = p.combining_class records d ∧
    (p.with_boundary b).bidi_class records d = p.bidi_class records d ∧
    (p.with_boundary b).joining_type records d = p.joining_type records d ∧
    (p.with_boundary b).cluster_break records d = p.cluster_break records d ∧
    (p.with_boundary b).word_break records d = p.word_break records d ∧
    (p.with_boundary b).line_break records d = p.line_break records d ∧
    (p.with_boundary b).is_emoji records d = p.is_emoji records d ∧
    (p.with_boundary b).is_extended_pictographic records d
      = p.is_extended_pictographic records d ∧
    (p.with_boundary b).is_open_bracket records d = p.is_open_bracket records d ∧
    (p.with_boundary b).is_close_bracket records d = p.is_close_bracket records d ∧
    (p.with_boundary b).is_ignorable records d = p.is_ignorable records d ∧
    (p.with_boundary b).is_variation_selector records d
      = p.is_variation_selector records d ∧
    (p.with_boundary b).contributes_to_shaping records d
      = p.contributes_to_shaping records d := by
  have hrec := record_set_boundary p b records d
  exact ⟨record_index_set_boundary p b, hrec,
    congrArg Record.category hrec, congrArg Record.block hrec,
    congrArg Record.script hrec, congrArg Record.combining_class hrec,
    congrArg Record.bidi_class hrec, congrArg Record.joining_type hrec,
    congrArg Record.cluster_break hrec, congrArg Record.word_break hrec,
    congrArg Record.line_break hrec,
    congrArg (fun r => r.flags.testBit 0) hrec,
    congrArg (fun r => r.flags.testBit 1) hrec,
    congrArg (fun r => r.flags.testBit 2) hrec,
    congrArg (fun r => r.flags.testBit 3) hrec,
    congrArg (fun r => r.flags.testBit 4) hrec,
    congrArg (fun r => r.flags.testBit 5) hrec,
    congrArg (fun r => r.flags.testBit 6) hrec⟩

/-- Method `Properties::new` from unicode.rs:
`Self(get_record_index(ch as usize) as u16)`.  The lookup function
`get_record_index` lives in the generated `unicode_data.rs` (not under
`src/`) and is passed as the parameter `gri`; the `as u16` cast is the
`% 65536` truncation. -/
def Properties.new (gri : Nat → Nat) (ch : Nat) : Properties :=
  ⟨gri ch % 65536⟩

/-- Validity of a Unicode scalar value per spec §6: in `0x0000`–`0x10FFFF`
and not a surrogate (`0xD800`–`0xDFFF`). -/
def is_valid_scalar (c : Nat) : Bool :=
  decide (c < 0x110000) && !(decide (0xD800 ≤ c) && decide (c ≤ 0xDFFF))

/-- Modelled from the spec: `get_record_index` is defined in the generated
`unicode_data.rs`, which is not under `src/`.  Per spec §7, supplying a
surrogate or an out-of-range value is a caller contract violation handled
by failing fast (abort / debug-assert) rather than by a soft error; the
fail-fast outcome is modelled as `none` and a completed lookup as `some`
of the underlying table lookup `gri`. -/
def get_record_index_checked (gri : Nat → Nat) (c : Nat) : Option Nat :=
  if is_valid_scalar c then some (gri c) else none

/-- Impl `From<u32> for Properties` from unicode.rs (`Self::new(ch)`), composed
with the spec-modelled fail-fast lookup: an invalid input aborts (`none`)
instead of producing a handle. -/
def Properties.from_u32 (gri : Nat → Nat) (ch : Nat) : Option Properties :=
  (get_record_index_checked gri ch).map fun i => ⟨i % 65536⟩

/-- Claim C3: for every `u32` input that is a surrogate or exceeds
`0x10FFFF`, the property lookup fails fast (modelled as `none`) rather
than returning a `Properties` handle. -/
theorem from_u32_invalid_fails_fast (gri : Nat → Nat) (ch : Nat)
    (h : (0xD800 ≤ ch ∧ ch ≤ 0xDFFF) ∨ 0x10FFFF < ch) :
    Properties.from_u32 gri ch = none := by
  unfold Properties.from_u32 get_record_index_checked is_valid_scalar
  rcases h with h | h
  · simp [h.1, h.2]
  · have : ¬ ch < 0x110000 := by omega
    simp [this]

/-- Witness for C3 at the surrogate `0xD800`. -/
theorem from_u32_invalid_fails_fast_witness :
    Properties.from_u32 (fun _ => 0) 0xD800 = none :=
  from_u32_invalid_fails_fast (fun _ => 0) 0xD800 (Or.inl (by omega))

/-- The `Properties` values reachable through the public conversion surface
considered by the safety claim: any `From` conversion (all four `From`
impls in unicode.rs funnel into `Properties::new`) followed by any
sequence of `set_boundary` / `with_boundary` updates. -/
inductive Reachable (gri : Nat → Nat) : Properties → Prop where
  | of_new (ch : Nat) : Reachable gri (Properties.new gri ch)
  | of_set_boundary (p : Properties) (b : Nat) :
      Reachable gri p → Reachable gri (p.set_boundary b)

/-- Claim C8: if `get_record_index` always returns an index that is below
`RECORDS.len()` and at most `0x1FFF`, then every reachable `Properties`
value has an in-bounds record index, so the unchecked indexing in
`Properties::record` never goes out of bounds and agrees with the checked
access. -/
theorem reachable_record_index_in_bounds (gri : Nat → Nat) (records : List Record)
    (hidx : ∀ c, gri c < records.length ∧ gri c ≤ 0x1FFF)
    (p : Properties) (hp : Reachable gri p) :
    ∃ h : p.record_index < records.length,
      ∀ d, p.record records d = records.get ⟨p.record_index, h⟩ := by
  have hlt : p.record_index < records.length := by
    induction hp with
    | of_new ch =>
        obtain ⟨h1, h2⟩ := hidx ch
        show (gri ch % 65536) &&& RECORD_MASK < records.length
        rw [and_record_mask]
        omega
    | of_set_boundary q b hq ih =>
        rw [record_index_set_boundary]
        exact ih
  exact ⟨hlt, fun d => List.getD_eq_get records d hlt⟩

/-- Witness for C8 on a one-record table with the constant lookup. -/
theorem reachable_record_index_in_bounds_witness :
    ∃ h : (Properties.new (fun _ => 0) 65).record_index
        < [Record.mk 0 0 0 0 0 0 0 0 0 0].length,
      ∀ d, (Properties.new (fun _ => 0) 65).record [Record.mk 0 0 0 0 0 0 0 0 0 0] d
        = [Record.mk 0 0 0 0 0 0 0 0 0 0].get ⟨(Properties.new (fun _ => 0) 65).record_index, h⟩ :=
  reachable_record_index_in_bounds (fun _ => 0) [Record.mk 0 0 0 0 0 0 0 0 0 0]
    (fun _ => ⟨Nat.one_pos, Nat.zero_le _⟩) _ (Reachable.of_new 65)

/-- Derive `Default` on `Properties` in unicode.rs: the derived impl
yields the zero word. -/
def Properties.default : Properties := ⟨0⟩

/-- The `Properties` values obtainable through the full public API of
unicode.rs: the derived `Default` impl, `From<char>` / `From<&char>`
(whose argument is a valid scalar by the `char` type), `From<u32>` /
`From<&u32>` (composed with the spec-modelled fail-fast lookup, so only
inputs that survive the lookup produce a value), and any sequence of
`set_boundary` / `with_boundary` updates. -/
inductive Obtainable (gri : Nat → Nat) : Properties → Prop where
  | of_default : Obtainable gri Properties.default
  | of_char (ch : Nat) : is_valid_scalar ch = true →
      Obtainable gri (Properties.new gri ch)
  | of_u32 (ch : Nat) (p : Properties) : Properties.from_u32 gri ch = some p →
      Obtainable gri p
  | of_set_boundary (p : Properties) (b : Nat) :
      Obtainable gri p → Obtainable gri (p.set_boundary b)

/-- Counterexample to claim C9 as stated: under a record-index lookup that
never returns 0 (legitimate, since nothing pins the generated table's
image), the publicly obtainable value `Properties::default()` carries
record-index component 0, which no lookup against any code point
produced.  The derived `Default` impl is a public construction path that
bypasses `get_record_index`. -/
theorem obtainable_lookup_counterexample :
    ¬ (∀ (gri : Nat → Nat) (p : Properties), Obtainable gri p →
        ∃ ch, is_valid_scalar ch = true ∧
          p.record_index = (Properties.new gri ch).record_index) := by
  intro h
  obtain ⟨ch, _, habs⟩ := h (fun _ => 1) Properties.default Obtainable.of_default
  have h0 : Properties.default.record_index = 0 := by decide
  have h1 : (Properties.new (fun _ => 1) ch).record_index = 1 := by
    show (1 % 65536) &&& RECORD_MASK = 1
    decide
  omega

/-- Claim C9, amended: every `Properties` value obtainable through the
public API either carries record-index component 0 — the value the derived
`Default` impl produces without any lookup — or its record-index component
was produced by `get_record_index` applied to a valid scalar value; in
particular the `From<u32>` path never yields a handle for an invalid
input. -/
theorem obtainable_record_index_default_or_lookup (gri : Nat → Nat)
    (p : Properties) (hp : Obtainable gri p) :
    p.record_index = 0 ∨
    ∃ ch, is_valid_scalar ch = true ∧
      p.record_index = (Properties.new gri ch).record_index := by
  induction hp with
  | of_default =>
      left
      decide
  | of_char ch hch =>
      right
      exact ⟨ch, hch, rfl⟩
  | of_u32 ch q hq =>
      right
      unfold Properties.from_u32 get_record_index_checked at hq
      by_cases hv : is_valid_scalar ch
      · refine ⟨ch, hv, ?_⟩
        simp [hv] at hq
        rw [← hq]
        rfl
      · simp [hv] at hq
  | of_set_boundary q b hq ih =>
      rw [record_index_set_boundary]
      exact ih

/-- Witness for the amended C9 at a concrete lookup and the `From<char>`
path for the letter A. -/
theorem obtainable_record_index_default_or_lookup_witness :
    (Properties.new (fun c => c % 3) 65).record_index = 0 ∨
    ∃ ch, is_valid_scalar ch = true ∧
      (Properties.new (fun c => c % 3) 65).record_index
        = (Properties.new (fun c => c % 3) ch).record_index :=
  obtainable_record_index_default_or_lookup (fun c => c % 3) _
    (Obtainable.of_char 65 (by decide))

/-- Modelled from the spec: the `BidiClass` enumeration is declared in the
generated `unicode_data.rs`, which is not under `src/`.  The 23 UAX#9
bidirectional classes are listed; per spec §4.5 each class maps to a
distinct bit of a 32-bit mask, so the numbering below stands in for the
generated discriminants — every property proved about `needs_resolution`
depends only on the discriminants being distinct and below 32. -/
inductive BidiClass where
  | L | R | AL | AN | EN | ES | ET | CS | NSM | BN | B | S | WS | ON
  | LRE | RLE | LRO | RLO | PDF | LRI | RLI | FSI | PDI
deriving DecidableEq, Repr

/-- The discriminant (`self as u32`) of a `BidiClass` value. -/
def BidiClass.code : BidiClass → Nat
  | .L => 0
  | .R => 1
  | .AL => 2
  | .AN => 3
  | .EN => 4
  | .ES => 5
  | .ET => 6
  | .CS => 7
  | .NSM => 8
  | .BN => 9
  | .B => 10
  | .S => 11
  | .WS => 12
  | .ON => 13
  | .LRE => 14
  | .RLE => 15
  | .LRO => 16
  | .RLO => 17
  | .PDF => 18
  | .LRI => 19
  | .RLI => 20
  | .FSI => 21
  | .PDI => 22

/-- Method `BidiClass::mask` from unicode.rs: `1 << (self as u32)` in `u32`
arithmetic. -/
def BidiClass.mask (c : BidiClass) : Nat :=
  (1 <<< c.code) % 2 ^ 32

/-- Method `BidiClass::needs_resolution` from unicode.rs: membership of the
class's mask bit in the union of the override, isolate and strong
right-to-left masks. -/
def BidiClass.needs_resolution (c : BidiClass) : Bool :=
  let OVERRIDE_MASK : Nat := BidiClass.RLE.mask ||| BidiClass.LRE.mask
    ||| BidiClass.RLO.mask ||| BidiClass.LRO.mask
  let ISOLATE_MASK : Nat := BidiClass.RLI.mask ||| BidiClass.LRI.mask
    ||| BidiClass.FSI.mask
  let EXPLICIT_MASK : Nat := OVERRIDE_MASK ||| ISOLATE_MASK
  let BIDI_MASK : Nat := EXPLICIT_MASK ||| BidiClass.R.mask
    ||| BidiClass.AL.mask ||| BidiClass.AN.mask
  c.mask &&& BIDI_MASK != 0

/-- Claim C2: `needs_resolution c` holds exactly when `c` is one of the
explicit override classes RLE, LRE, RLO, LRO, the explicit isolate classes
RLI, LRI, FSI, or the strong classes R, AL, AN; in particular it holds for
R and fails for L. -/
theorem needs_resolution_iff :
    (∀ c : BidiClass, c.needs_resolution = true ↔
      (c = .RLE ∨ c = .LRE ∨ c = .RLO ∨ c = .LRO ∨
       c = .RLI ∨ c = .LRI ∨ c = .FSI ∨
       c = .R ∨ c = .AL ∨ c = .AN)) ∧
    BidiClass.R.needs_resolution = true ∧
    BidiClass.L.needs_resolution = false := by
  refine ⟨fun c => ?_, by decide, by decide⟩
  cases c <;> decide

/-- The loop of Rust's `slice::binary_search_by` (core library), which the
lookups in unicode.rs call on the static pair tables: maintains the window
`[left, right)`, probes `mid = left + (right - left) / 2`, narrows on
`Less` / `Greater`, answers `Ok mid` on `Equal`, and `Err left` (the
insertion point) when the window empties.  The slice access is modelled
with `getD`; every probe is in bounds whenever `right ≤ l.length`. -/
def binary_search_loop (l : List α) (f : α → Ordering) (d : α)
    (left right : Nat) : Except Nat Nat :=
  if h : left < right then
    match f (l.getD (left + (right - left) / 2) d) with
    | .lt => binary_search_loop l f d (left + (right - left) / 2 + 1) right
    | .gt => binary_search_loop l f d left (left + (right - left) / 2)
    | .eq => .ok (left + (right - left) / 2)
  else .error left
termination_by right - left
decreasing_by
  · omega
  · omega

/-- Rust's `slice::binary_search_by` over the whole slice. -/
def binary_search_by (l : List α) (f : α → Ordering) (d : α) : Except Nat Nat :=
  binary_search_loop l f d 0 l.length

theorem binary_search_loop_ok (l : List α) (f : α → Ordering) (d : α)
    (left right i : Nat) (hr : right ≤ l.length)
    (h : binary_search_loop l f d left right = .ok i) :
    left ≤ i ∧ i < right ∧ ∃ hi : i < l.length, f (l.get ⟨i, hi⟩) = .eq := by
  rw [binary_search_loop] at h
  split at h
  case isTrue hlt =>
    split at h
    case h_1 heq =>
      obtain ⟨h1, h2, h3⟩ := binary_search_loop_ok l f d _ right i hr h
      exact ⟨by omega, h2, h3⟩
    case h_2 heq =>
      have hmid : left + (right - left) / 2 ≤ l.length := by omega
      obtain ⟨h1, h2, h3⟩ := binary_search_loop_ok l f d left _ i hmid h
      exact ⟨h1, by omega, h3⟩
    case h_3 heq =>
      injection h with h
      subst h
      have hi : left + (right - left) / 2 < l.length := by omega
      refine ⟨by omega, by omega, hi, ?_⟩
      rw [← List.getD_eq_get l d hi]
      exact heq
  case isFalse hlt =>
    cases h
termination_by right - left
decreasing_by
  · omega
  · omega

theorem binary_search_loop_finds (l : List α) (key : α → Nat) (c : Nat) (d : α)
    (hs : l.Pairwise fun x y => key x < key y)
    (left right : Nat) (hr : right ≤ l.length)
    (j : Nat) (hj : j < l.length) (hj1 : left ≤ j) (hj2 : j < right)
    (hkey : key (l.get ⟨j, hj⟩) = c) :
    ∃ i, binary_search_loop l (fun x => compare (key x) c) d left right = .ok i := by
  have hlt : left < right := by omega
  have hmlt : left + (right - left) / 2 < l.length := by omega
  rw [binary_search_loop]
  rw [dif_pos hlt]
  rw [List.getD_eq_get l d hmlt]
  rcases hcmp : compare (key (l.get ⟨left + (right - left) / 2, hmlt⟩)) c with _ | _ | _
  · -- probe key is below the target: the target index lies right of mid
    rw [Nat.compare_eq_lt] at hcmp
    have hne : left + (right - left) / 2 < j := by
      rcases Nat.lt_trichotomy j (left + (right - left) / 2) with hj3 | hj3 | hj3
      · have := (List.pairwise_iff_get.mp hs) ⟨j, hj⟩ ⟨_, hmlt⟩ hj3
        omega
      · subst hj3
        omega
      · exact hj3
    obtain ⟨i, hi⟩ := binary_search_loop_finds l key c d hs
      (left + (right - left) / 2 + 1) right hr j hj (by omega) hj2 hkey
    exact ⟨i, by simpa [hcmp] using hi⟩
  · -- probe key matches: answer the probe index
    exact ⟨left + (right - left) / 2, by simp [hcmp]⟩
  · -- probe key is above the target: the target index lies left of mid
    rw [Nat.compare_eq_gt] at hcmp
    have hne : j < left + (right - left) / 2 := by
      rcases Nat.lt_trichotomy j (left + (right - left) / 2) with hj3 | hj3 | hj3
      · exact hj3
      · subst hj3
        omega
      · have := (List.pairwise_iff_get.mp hs) ⟨_, hmlt⟩ ⟨j, hj⟩ hj3
        omega
    obtain ⟨i, hi⟩ := binary_search_loop_finds l key c d hs
      left (left + (right - left) / 2) (by omega) j hj hj1 hne hkey
    exact ⟨i, by simpa [hcmp] using hi⟩
termination_by right - left
decreasing_by
  · omega
  · omega

/-- Strict sortedness of a table in the column selected by `key`: the
precondition the sorted pair tables of unicode.rs satisfy. -/
@[reducible]
def sorted_by_key (key : α → Nat) (l : List α) : Prop :=
  l.Pairwise fun x y => key x < key y

/-- The shared shape of the four table lookups in unicode.rs: binary search
by the `key` column, projecting the `val` component of the matching
entry. -/
def lookup_by {β : Type} (l : List α) (key : α → Nat) (val : α → β) (c : Nat)
    (d : α) : Option β :=
  match binary_search_by l (fun x => compare (key x) c) d with
  | .ok idx => some (val (l.getD idx d))
  | .error _ => none

theorem lookup_by_iff {β : Type} (l : List α) (key : α → Nat) (val : α → β)
    (c : Nat) (d : α) (hs : sorted_by_key key l) (v : β) :
    lookup_by l key val c d = some v ↔ ∃ x ∈ l, key x = c ∧ val x = v := by
  constructor
  · intro h
    unfold lookup_by at h
    split at h
    case h_1 i heq =>
      obtain ⟨h1, h2, hi, hfeq⟩ :=
        binary_search_loop_ok l (fun x => compare (key x) c) d 0 l.length i le_rfl heq
      rw [Nat.compare_eq_eq] at hfeq
      injection h with h
      refine ⟨l.get ⟨i, hi⟩, List.get_mem l i hi, hfeq, ?_⟩
      rw [← h, List.getD_eq_get l d hi]
    case h_2 heq =>
      cases h
  · rintro ⟨x, hx, hkx, hvx⟩
    obtain ⟨j, hjget⟩ := List.mem_iff_get.mp hx
    obtain ⟨i, hi⟩ := binary_search_loop_finds l key c d hs 0 l.length le_rfl
      j.1 j.2 (Nat.zero_le _) j.2 (by rw [show l.get ⟨j.1, j.2⟩ = x from hjget]; exact hkx)
    obtain ⟨h1, h2, hi', hfeq⟩ :=
      binary_search_loop_ok l (fun x => compare (key x) c) d 0 l.length i le_rfl hi
    rw [Nat.compare_eq_eq] at hfeq
    have hij : i = j.1 := by
      rcases Nat.lt_trichotomy i j.1 with h3 | h3 | h3
      · have hne := (List.pairwise_iff_get.mp hs) ⟨i, hi'⟩ j h3
        rw [hjget, hkx] at hne
        omega
      · exact h3
      · have hne := (List.pairwise_iff_get.mp hs) j ⟨i, hi'⟩ h3
        rw [hjget, hkx] at hne
        omega
    have hx2 : l.getD i d = x := by
      rw [List.getD_eq_get l d hi']
      subst hij
      exact hjget
    unfold lookup_by binary_search_by
    rw [hi]
    show some (val (l.getD i d)) = some v
    rw [hx2, hvx]

/-- Method `closing_bracket` for `char` from unicode.rs: binary search of the
`BRACKETS` pair table (here a parameter) by the opening (first) column,
returning the closing partner; `from_u32_unchecked` on the table entry is
the identity in the `Nat` embedding of `char`. -/
def closing_bracket (brackets : List (Nat × Nat)) (c : Nat) : Option Nat :=
  match binary_search_by brackets (fun x => compare x.1 c) (0, 0) with
  | .ok idx => some (brackets.getD idx (0, 0)).2
  | .error _ => none

/-- Method `opening_bracket` for `char` from unicode.rs: binary search of
`BRACKETS` by the closing (second) column, returning the opening
partner. -/
def opening_bracket (brackets : List (Nat × Nat)) (c : Nat) : Option Nat :=
  match binary_search_by brackets (fun x => compare x.2 c) (0, 0) with
  | .ok idx => some (brackets.getD idx (0, 0)).1
  | .error _ => none

/-- Method `mirror` for `char` from unicode.rs: binary search of the `MIRRORS`
pair table by its first column. -/
def mirror (mirrors : List (Nat × Nat)) (c : Nat) : Option Nat :=
  match binary_search_by mirrors (fun x => compare x.1 c) (0, 0) with
  | .ok idx => some (mirrors.getD idx (0, 0)).2
  | .error _ => none

theorem closing_bracket_eq_lookup_by (brackets : List (Nat × Nat)) (c : Nat) :
    closing_bracket brackets c = lookup_by brackets Prod.fst Prod.snd c (0, 0) := by
  unfold closing_bracket lookup_by
  rfl

theorem opening_bracket_eq_lookup_by (brackets : List (Nat × Nat)) (c : Nat) :
    opening_bracket brackets c = lookup_by brackets Prod.snd Prod.fst c (0, 0) := by
  unfold opening_bracket lookup_by
  rfl

theorem mirror_eq_lookup_by (mirrors : List (Nat × Nat)) (c : Nat) :
    mirror mirrors c = lookup_by mirrors Prod.fst Prod.snd c (0, 0) := by
  unfold mirror lookup_by
  rfl

/-- Enum `BracketType` from unicode.rs. -/
inductive BracketType where
  | none
  | Open (partner : Nat)
  | Close (partner : Nat)
deriving DecidableEq, Repr

/-- Method `bracket_type` for `char` from unicode.rs: first tests
`closing_bracket` (is the character a registered opener?), only then
`opening_bracket`. -/
def bracket_type (brackets : List (Nat × Nat)) (c : Nat) : BracketType :=
  match closing_bracket brackets c with
  | some other => BracketType.Open other
  | _ =>
    match opening_bracket brackets c with
    | some other => BracketType.Close other
    | _ => BracketType.none

/-- Claim C4: with the pair tables strictly sorted in the searched column,
`closing_bracket` answers `some c` exactly for the entries `(ch, c)` of
`BRACKETS`, `opening_bracket` answers `some o` exactly for the entries
`(o, ch)`, and `mirror` answers `some m` exactly for the entries
`(ch, m)` of `MIRRORS`; each returns `none` exactly when no such entry
exists, as a normal result. -/
theorem bracket_mirror_lookup_iff (brackets mirrors : List (Nat × Nat)) (ch : Nat)
    (hBf : sorted_by_key Prod.fst brackets) (hBs : sorted_by_key Prod.snd brackets)
    (hMf : sorted_by_key Prod.fst mirrors) :
    (∀ c, closing_bracket brackets ch = some c ↔ (ch, c) ∈ brackets) ∧
    (∀ o, opening_bracket brackets ch = some o ↔ (o, ch) ∈ brackets) ∧
    (∀ m, mirror mirrors ch = some m ↔ (ch, m) ∈ mirrors) := by
  refine ⟨fun c => ?_, fun o => ?_, fun m => ?_⟩
  · rw [closing_bracket_eq_lookup_by,
      lookup_by_iff brackets Prod.fst Prod.snd ch (0, 0) hBf c]
    constructor
    · rintro ⟨⟨x1, x2⟩, hx, rfl, rfl⟩
      exact hx
    · intro hmem
      exact ⟨(ch, c), hmem, rfl, rfl⟩
  · rw [opening_bracket_eq_lookup_by,
      lookup_by_iff brackets Prod.snd Prod.fst ch (0, 0) hBs o]
    constructor
    · rintro ⟨⟨x1, x2⟩, hx, rfl, rfl⟩
      exact hx
    · intro hmem
      exact ⟨(o, ch), hmem, rfl, rfl⟩
  · rw [mirror_eq_lookup_by,
      lookup_by_iff mirrors Prod.fst Prod.snd ch (0, 0) hMf m]
    constructor
    · rintro ⟨⟨x1, x2⟩, hx, rfl, rfl⟩
      exact hx
    · intro hmem
      exact ⟨(ch, m), hmem, rfl, rfl⟩

/-- Witness for C4 on small concrete tables: the parenthesis pair in
`BRACKETS` and a mirrored angle pair in `MIRRORS`. -/
theorem bracket_mirror_lookup_iff_witness :
    (∀ c, closing_bracket [(40, 41), (91, 93)] 40 = some c ↔ (40, c) ∈ [(40, 41), (91, 93)]) ∧
    (∀ o, opening_bracket [(40, 41), (91, 93)] 40 = some o ↔ (o, 40) ∈ [(40, 41), (91, 93)]) ∧
    (∀ m, mirror [(60, 62), (62, 60)] 40 = some m ↔ (40, m) ∈ [(60, 62), (62, 60)]) :=
  bracket_mirror_lookup_iff [(40, 41), (91, 93)] [(60, 62), (62, 60)] 40
    (by decide) (by decide) (by decide)

/-- Claim C1: `bracket_type` is decided by testing the opener side first —
`closing_bracket = some p` forces `Open p`, only a failed opener test
falls through to the closer test, and a failure of both yields `none`; in
particular (with the table sorted in the searched columns) a code point
present in both columns of the bracket table resolves as `Open`. -/
theorem bracket_type_precedence (brackets : List (Nat × Nat)) (ch : Nat)
    (hBf : sorted_by_key Prod.fst brackets) :
    (∀ p, closing_bracket brackets ch = some p →
      bracket_type brackets ch = BracketType.Open p) ∧
    (closing_bracket brackets ch = none →
      ∀ q, opening_bracket brackets ch = some q →
        bracket_type brackets ch = BracketType.Close q) ∧
    (closing_bracket brackets ch = none → opening_bracket brackets ch = none →
      bracket_type brackets ch = BracketType.none) ∧
    (∀ x y, (ch, x) ∈ brackets → (y, ch) ∈ brackets →
      ∃ p, bracket_type brackets ch = BracketType.Open p) := by
  have hopen : ∀ p, closing_bracket brackets ch = some p →
      bracket_type brackets ch = BracketType.Open p := by
    intro p hp
    unfold bracket_type
    rw [hp]
  refine ⟨hopen, ?_, ?_, ?_⟩
  · intro hnone q hq
    unfold bracket_type
    rw [hnone, hq]
  · intro hnone hqnone
    unfold bracket_type
    rw [hnone, hqnone]
  · intro x y hx hy
    have hsome : closing_bracket brackets ch = some x := by
      rw [closing_bracket_eq_lookup_by,
        lookup_by_iff brackets Prod.fst Prod.snd ch (0, 0) hBf x]
      exact ⟨(ch, x), hx, rfl, rfl⟩
    exact ⟨x, hopen x hsome⟩

/-- Witness for C1 on a table where the code point 2 occurs in both the
opening and the closing column. -/
theorem bracket_type_precedence_witness :
    (∀ p, closing_bracket [(1, 2), (2, 3)] 2 = some p →
      bracket_type [(1, 2), (2, 3)] 2 = BracketType.Open p) ∧
    (closing_bracket [(1, 2), (2, 3)] 2 = none →
      ∀ q, opening_bracket [(1, 2), (2, 3)] 2 = some q →
        bracket_type [(1, 2), (2, 3)] 2 = BracketType.Close q) ∧
    (closing_bracket [(1, 2), (2, 3)] 2 = none →
      opening_bracket [(1, 2), (2, 3)] 2 = none →
      bracket_type [(1, 2), (2, 3)] 2 = BracketType.none) ∧
    (∀ x y, (2, x) ∈ [(1, 2), (2, 3)] → (y, 2) ∈ [(1, 2), (2, 3)] →
      ∃ p, bracket_type [(1, 2), (2, 3)] 2 = BracketType.Open p) :=
  bracket_type_precedence [(1, 2), (2, 3)] 2 (by decide)

/-- Modelled from the spec: the `Script` enumeration is declared in the
generated `unicode_data.rs`, which is not under `src/`; only the
constructors the claims mention are modelled, plus a default used as the
`getD` placeholder. -/
inductive Script where
  | Arabic
  | Latin
  | Common
deriving DecidableEq, Repr

/-- The Arabic OpenType script tag `arab` as a big-endian `u32` (the `Tag`
type of the source). -/
def ARAB_TAG : Nat := 0x61726162

/-- Method `Script::from_opentype` from unicode.rs: binary search of the
tag-sorted `SCRIPTS_BY_TAG` table (here a parameter) by the tag column. -/
def from_opentype (table : List (Nat × Script)) (tag : Nat) : Option Script :=
  match binary_search_by table (fun x => compare x.1 tag) (0, Script.Common) with
  | .ok index => some (table.getD index (0, Script.Common)).2
  | .error _ => none

theorem from_opentype_eq_lookup_by (table : List (Nat × Script)) (tag : Nat) :
    from_opentype table tag = lookup_by table Prod.fst Prod.snd tag (0, Script.Common) := by
  unfold from_opentype lookup_by
  rfl

/-- Claim C10: with `SCRIPTS_BY_TAG` strictly sorted by tag,
`from_opentype` answers `some s` exactly for the entries `(t, s)` of the
table and `none` for every unrecognized tag; in particular the Arabic
OpenType tag maps to `Script.Arabic` whenever its entry is present. -/
theorem from_opentype_iff (table : List (Nat × Script))
    (hs : sorted_by_key Prod.fst table) :
    (∀ t s, from_opentype table t = some s ↔ (t, s) ∈ table) ∧
    ((ARAB_TAG, Script.Arabic) ∈ table →
      from_opentype table ARAB_TAG = some Script.Arabic) := by
  have hiff : ∀ t s, from_opentype table t = some s ↔ (t, s) ∈ table := by
    intro t s
    rw [from_opentype_eq_lookup_by,
      lookup_by_iff table Prod.fst Prod.snd t (0, Script.Common) hs s]
    constructor
    · rintro ⟨⟨x1, x2⟩, hx, rfl, rfl⟩
      exact hx
    · intro hmem
      exact ⟨(t, s), hmem, rfl, rfl⟩
  exact ⟨hiff, fun hmem => (hiff ARAB_TAG Script.Arabic).mpr hmem⟩

/-- Witness for C10 on a one-entry table holding the Arabic tag. -/
theorem from_opentype_iff_witness :
    (∀ t s, from_opentype [(ARAB_TAG, Script.Arabic)] t = some s ↔
      (t, s) ∈ [(ARAB_TAG, Script.Arabic)]) ∧
    ((ARAB_TAG, Script.Arabic) ∈ [(ARAB_TAG, Script.Arabic)] →
      from_opentype [(ARAB_TAG, Script.Arabic)] ARAB_TAG = some Script.Arabic) :=
  from_opentype_iff [(ARAB_TAG, Script.Arabic)] (by decide)

/-- First code point of the algorithmic Hangul syllable block. -/
def HANGUL_BASE : Nat := 0xAC00

/-- First leading-consonant (choseong) jamo. -/
def HANGUL_L_BASE : Nat := 0x1100

/-- First vowel (jungseong) jamo. -/
def HANGUL_V_BASE : Nat := 0x1161

/-- Trailing-consonant (jongseong) jamo base, one below the first
trailing jamo. -/
def HANGUL_T_BASE : Nat := 0x11A7

/-- Number of vowel jamo. -/
def HANGUL_V_COUNT : Nat := 21

/-- Number of trailing-consonant slots (including the empty one). -/
def HANGUL_T_COUNT : Nat := 28

/-- Number of precomposed Hangul syllables. -/
def HANGUL_S_COUNT : Nat := 11172

/-- Membership in the contiguous, algorithmically defined Hangul syllable
block (spec §4.2). -/
def is_hangul_syllable (c : Nat) : Bool :=
  decide (HANGUL_BASE ≤ c) && decide (c < HANGUL_BASE + HANGUL_S_COUNT)

/-- Modelled from the spec: the arithmetic Hangul decomposition of spec
§4.2 — leading consonant, vowel, and optional trailing consonant jamo
computed from the syllable's offset in the block. -/
def decompose_hangul (c : Nat) : List Nat :=
  let s := c - HANGUL_BASE
  let l := HANGUL_L_BASE + s / (HANGUL_V_COUNT * HANGUL_T_COUNT)
  let v := HANGUL_V_BASE + s % (HANGUL_V_COUNT * HANGUL_T_COUNT) / HANGUL_T_COUNT
  let t := s % HANGUL_T_COUNT
  if t = 0 then [l, v] else [l, v, HANGUL_T_BASE + t]

/-- The explicit recursion-depth bound of spec §4.2 (Unicode guarantees a
small maximum canonical decomposition depth). -/
def MAX_DECOMP_DEPTH : Nat := 8

/-- Modelled from the spec: the canonical decomposition engine lives in
`compose.rs`, which is not under `src/`.  Per spec §4.2, a character
decomposes to exactly `[ch]` when it has no canonical decomposition, a
Hangul syllable decomposes arithmetically, and a tabulated canonical
mapping (the parameter `canon`) is expanded recursively under an explicit
depth bound.  With the depth exhausted the code point is emitted as is. -/
def decompose_rec (canon : Nat → Option (List Nat)) : Nat → Nat → List Nat
  | 0, c => [c]
  | depth + 1, c =>
    if is_hangul_syllable c then decompose_hangul c
    else
      match canon c with
      | some parts => parts.bind (decompose_rec canon depth)
      | none => [c]

/-- Modelled from the spec: `decompose(ch)` — one canonical decomposition
pass over a source character, restartable and re-derivable, rendered as
the finite list of scalar values it yields. -/
def decompose (canon : Nat → Option (List Nat)) (c : Nat) : List Nat :=
  decompose_rec canon MAX_DECOMP_DEPTH c

/-- Claim C5: for every valid scalar value with no tabulated canonical
mapping that is not a Hangul syllable, `decompose` yields exactly the
single-element sequence `[ch]`. -/
theorem decompose_no_mapping_singleton (canon : Nat → Option (List Nat)) (ch : Nat)
    (hvalid : is_valid_scalar ch = true)
    (hcanon : canon ch = none)
    (hhangul : is_hangul_syllable ch = false) :
    decompose canon ch = [ch] := by
  show decompose_rec canon MAX_DECOMP_DEPTH ch = [ch]
  rw [show MAX_DECOMP_DEPTH = 7 + 1 from rfl]
  unfold decompose_rec
  rw [hhangul, hcanon]
  rfl

/-- Witness for C5 at the letter A under an empty canonical table. -/
theorem decompose_no_mapping_singleton_witness :
    decompose (fun _ => none) 65 = [65] :=
  decompose_no_mapping_singleton (fun _ => none) 65 (by decide) rfl (by decide)

end Rio
